import Mathlib

/-!
Verification of the xarmour block scanner and per-block process pipeline
(src/xarmour.c) against its natural-language specification.

The program reads stdin with fgets into a 1024-byte buffer (MAX_LINE),
recognises PEM/PGP armour delimiters with
sscanf(buffer, "-----BEGIN %1000[^-]-----", blabel) and
sscanf(buffer, "-----END %1000[^-]-----", elabel),
spawns the configured command for each block, writes every line of the open
block to the child's stdin, and aggregates child termination statuses
(immediate failure propagation without -t, success counting with -t).

The embedding below models the input as a list of characters, each child's
termination as an oracle value consulted at waitpid time, and pipe/fork
success as an oracle per spawn attempt.  Everything the loop observably does
(spawned invocations with their environment and stdin bytes, waits, pipe
closes, final exit status, unread input) is collected in a RunResult.
-/

namespace Xarmour

/-- MAX_LINE from src/xarmour.c: the fgets buffer size; fgets therefore
reads at most 1023 characters per call. -/
def maxLine : Nat := 1024

/-- C isspace in the default locale, as used by the whitespace directive of
sscanf when matching the space in "-----BEGIN %1000[^-]-----". -/
def isWSpace (c : Char) : Bool :=
  c = ' ' || c = '\t' || c = '\n' || c = '\x0b' || c = '\x0c' || c = '\r'

/-- Matching of a literal (non-whitespace) run of format characters by
sscanf: each input character must equal the format character exactly;
returns the rest of the input on success. -/
def matchLit : List Char → List Char → Option (List Char)
  | [], s => some s
  | _ :: _, [] => none
  | p :: ps, c :: cs => if c = p then matchLit ps cs else none

/-- The sscanf matcher shared by the begin and end formats
"-----BEGIN %1000[^-]-----" and "-----END %1000[^-]-----": match the
literal part before the space, skip whitespace (the space directive), then
convert %1000[^-] -- a non-empty run of non-dash characters, at most 1000
of them.  sscanf returns 1 (one successful conversion) exactly when the
%[^-] conversion succeeds; the trailing "-----" literal can no longer
change the return value, so it is irrelevant to the == 1 test in the code. -/
def scanMarker (lit : List Char) (s : List Char) : Option (List Char) :=
  match matchLit lit s with
  | none => none
  | some r =>
    let r2 := r.dropWhile fun c => isWSpace c
    let lab := (r2.takeWhile fun c => c != '-').take 1000
    if lab = [] then none else some lab

/-- The literal part of the begin format "-----BEGIN %1000[^-]-----". -/
def beginLit : List Char := ['-', '-', '-', '-', '-', 'B', 'E', 'G', 'I', 'N']

/-- The literal part of the end format "-----END %1000[^-]-----". -/
def endLit : List Char := ['-', '-', '-', '-', '-', 'E', 'N', 'D']

/-- sscanf(buffer, "-----BEGIN %1000[^-]-----", blabel) == 1, returning the
captured label. -/
def scanBegin (s : List Char) : Option (List Char) := scanMarker beginLit s

/-- sscanf(buffer, "-----END %1000[^-]-----", elabel) == 1, returning the
captured label. -/
def scanEnd (s : List Char) : Option (List Char) := scanMarker endLit s

/-- fgets(buffer, 1024, stdin) chunking of the input stream: each returned
chunk ends at a newline or after 1023 characters, whichever comes first;
a final unterminated chunk is returned as-is at end of input.  The first
argument is the remaining capacity of the current chunk (1023 at the start
of each chunk), the second the characters accumulated for it so far. -/
def splitLinesAux : Nat → List Char → List Char → List (List Char)
  | _, acc, [] => if acc = [] then [] else [acc]
  | k, acc, c :: rest =>
    if c = '\n' ∨ k ≤ 1 then (acc ++ [c]) :: splitLinesAux (maxLine - 1) [] rest
    else splitLinesAux (k - 1) (acc ++ [c]) rest

/-- The sequence of buffers successively returned by fgets on the given
input. -/
def readLines (input : List Char) : List (List Char) :=
  splitLinesAux (maxLine - 1) [] input

/-- waitpid's classification of a child's termination, after the EINTR
retry loop: waitpid failed with an error other than EINTR, or WIFEXITED
with WEXITSTATUS code, or WIFSIGNALED with WTERMSIG sig, or some other
status (neither exited nor signaled). -/
inductive WaitResult where
  | failed : WaitResult
  | exited (code : Nat) : WaitResult
  | signaled (sig : Nat) : WaitResult
  | other : WaitResult
deriving Repr, DecidableEq

/-- One spawned child: the environment the fork child installs before
execvp (XARMOUR_INDEX, XARMOUR_COUNT, XARMOUR_TIMES, XARMOUR_LABEL) and
the bytes written to its standard input.  An environment variable is
modelled as none when unset and some v when set to value v; the code sets
all four unconditionally. -/
structure Invocation where
  envIndex : Nat
  envCount : Nat
  envTimes : Option String
  envLabel : List Char
  stdin : List Char
deriving Repr, DecidableEq

/-- The mutable state of main's while loop: cur is the open block's child
(f >= 0, with blabel and the bytes written so far) or none (f < 0); index,
count are main's counters; waited and pipesClosed count the waitpid calls
and close(pipefd[WRITE_FD]) calls performed; acc lists the children whose
block was closed, in order. -/
structure LoopState where
  cur : Option Invocation
  index : Nat
  count : Nat
  waited : Nat
  pipesClosed : Nat
  acc : List Invocation
deriving Repr, DecidableEq

/-- State at entry to the while loop. -/
def initState : LoopState :=
  { cur := none, index := 0, count := 0, waited := 0, pipesClosed := 0, acc := [] }

/-- Result of one loop iteration: either the program returns (with exit
code, the full list of children spawned, and the counts of waits and pipe
closes performed), or the loop continues in a new state. -/
inductive StepRes where
  | halt (code : Nat) (acc : List Invocation) (waited pipes : Nat) : StepRes
  | cont (st : LoopState) : StepRes
deriving Repr, DecidableEq

/-- The environment set up in the fork child before execvp: index, count
and times are formatted with snprintf "%ld" and installed with setenv
unconditionally; the label is the captured begin label. -/
def mkInv (times : Nat) (st : LoopState) (bl : List Char) : Invocation :=
  { envIndex := st.index, envCount := st.count,
    envTimes := some (Nat.repr times), envLabel := bl, stdin := [] }

/-- Block close: index++, close(pipefd[WRITE_FD]), then the waitpid retry
loop and the status dispatch of src/xarmour.c lines 257-319.  The oracle
oc gives the wait classification of the n-th spawned child; the child
being closed is number st.acc.length.  waitpid failure returns
EXIT_FAILURE (1) before the times test; WIFEXITED with status 0 increments
count; otherwise a configured times swallows the failure; otherwise a
nonzero exit code is returned as-is, a signal as sig+128, and any other
status as EX_OSERR (71). -/
def closeWait (times : Nat) (oc : Nat → WaitResult) (st : LoopState)
    (inv2 : Invocation) : StepRes :=
  match oc st.acc.length with
  | .failed => .halt 1 (st.acc ++ [inv2]) (st.waited + 1) (st.pipesClosed + 1)
  | .exited code =>
    if code = 0 then
      .cont { cur := none, index := st.index + 1, count := st.count + 1,
              waited := st.waited + 1, pipesClosed := st.pipesClosed + 1,
              acc := st.acc ++ [inv2] }
    else if times ≠ 0 then
      .cont { cur := none, index := st.index + 1, count := st.count,
              waited := st.waited + 1, pipesClosed := st.pipesClosed + 1,
              acc := st.acc ++ [inv2] }
    else .halt code (st.acc ++ [inv2]) (st.waited + 1) (st.pipesClosed + 1)
  | .signaled sig =>
    if times ≠ 0 then
      .cont { cur := none, index := st.index + 1, count := st.count,
              waited := st.waited + 1, pipesClosed := st.pipesClosed + 1,
              acc := st.acc ++ [inv2] }
    else .halt (sig + 128) (st.acc ++ [inv2]) (st.waited + 1) (st.pipesClosed + 1)
  | .other =>
    if times ≠ 0 then
      .cont { cur := none, index := st.index + 1, count := st.count,
              waited := st.waited + 1, pipesClosed := st.pipesClosed + 1,
              acc := st.acc ++ [inv2] }
    else .halt 71 (st.acc ++ [inv2]) (st.waited + 1) (st.pipesClosed + 1)

/-- The f >= 0 part of the loop body (src/xarmour.c lines 245-323): the
buffer is written to the open child's pipe (write failures are ignored),
then the end format is tried; a match whose label strcmp-equals the begin
label closes the block, any other line leaves the block open. -/
def feedLine (times : Nat) (oc : Nat → WaitResult) (st : LoopState)
    (inv : Invocation) (buffer : List Char) : StepRes :=
  let inv2 := { inv with stdin := inv.stdin ++ buffer }
  match scanEnd buffer with
  | none => .cont { st with cur := some inv2 }
  | some el =>
    if el = inv.envLabel then closeWait times oc st inv2
    else .cont { st with cur := some inv2 }

/-- One iteration of main's while (fgets(...)) loop on one buffer.  With no
block open (f < 0), a buffer matching the begin format attempts
pipe+fork: the oracle sp tells whether the n-th spawn attempt succeeds
(false models pipe() or fork() failing, which returns EXIT_FAILURE);
on success the child is created with its environment and the same buffer
then flows into the f >= 0 part, which writes it to the child.  With a
block open the buffer goes to the f >= 0 part directly; begin markers are
not re-examined there. -/
def xarmourStep (times : Nat) (sp : Nat → Bool) (oc : Nat → WaitResult)
    (st : LoopState) (buffer : List Char) : StepRes :=
  match st.cur with
  | some inv => feedLine times oc st inv buffer
  | none =>
    match scanBegin buffer with
    | none => .cont st
    | some bl =>
      if sp st.acc.length then
        feedLine times oc { st with cur := some (mkInv times st bl) }
          (mkInv times st bl) buffer
      else .halt 1 st.acc st.waited st.pipesClosed

/-- Everything observable about a finished run: the exit status of main,
the children spawned in order (environment and stdin bytes), how many of
them were waited for and had their pipe's write end closed, the final
value of the success counter, the stdin bytes the program never read
(empty unless main returned from inside the loop), and whether the loop
consumed all input (reaching the code after the while loop). -/
structure RunResult where
  exitCode : Nat
  invocations : List Invocation
  waitedCount : Nat
  pipesClosed : Nat
  successCount : Nat
  leftoverInput : List Char
  completed : Bool
deriving Repr, DecidableEq

/-- The code after the while loop (src/xarmour.c lines 327-340): with times
configured, success iff count reached times, else EXIT_FAILURE; without
times, EXIT_SUCCESS.  A child still open at EOF appears in invocations but
was neither waited for nor had its pipe closed. -/
def finishRun (times : Nat) (st : LoopState) : RunResult :=
  { exitCode := if times ≠ 0 then (if st.count < times then 1 else 0) else 0,
    invocations := st.acc ++ (match st.cur with | some inv => [inv] | none => []),
    waitedCount := st.waited, pipesClosed := st.pipesClosed,
    successCount := st.count, leftoverInput := [], completed := true }

/-- main's while (fgets(...)) loop over the successive fgets buffers. -/
def runLines (times : Nat) (sp : Nat → Bool) (oc : Nat → WaitResult) :
    List (List Char) → LoopState → RunResult
  | [], st => finishRun times st
  | buffer :: rest, st =>
    match xarmourStep times sp oc st buffer with
    | .halt code acc waited pipes =>
      { exitCode := code, invocations := acc, waitedCount := waited,
        pipesClosed := pipes, successCount := st.count,
        leftoverInput := rest.flatten, completed := false }
    | .cont st2 => runLines times sp oc rest st2

/-- The whole run of xarmour on the given stdin bytes: times is the -t
value (0 when the option was not given; getopt enforces times >= 1 when it
was), sp the spawn oracle, oc the wait oracle. -/
def xarmourMain (times : Nat) (sp : Nat → Bool) (oc : Nat → WaitResult)
    (input : List Char) : RunResult :=
  runLines times sp oc (readLines input) initState

/-- The status translation of the close branch (src/xarmour.c lines
270-316): waitpid failure is EXIT_FAILURE (1), a nonzero exit code is
returned as-is, a signal as sig+128, anything else as EX_OSERR (71). -/
def translateStatus : WaitResult → Nat
  | .failed => 1
  | .exited code => code
  | .signaled sig => sig + 128
  | .other => 71

/-- A loop iteration that leaves no block open: either the program
returned, or the continuation state has no current child. -/
def StepCloses : StepRes → Prop
  | .halt _ _ _ _ => True
  | .cont st2 => st2.cur = none

/-- How many of the first n waited-for children exited with status 0 --
the quantity main's count variable tracks. -/
def countOk (oc : Nat → WaitResult) (n : Nat) : Nat :=
  ((List.range n).filter fun i => oc i = .exited 0).length

/-- Interleaving of line segments: alternating runs of lines outside any
block and runs of lines belonging to one block, followed by a final
outside run. -/
def glueSegs : List (List (List Char) × List (List Char)) → List (List Char) → List (List Char)
  | [], tail => tail
  | (o, b) :: ps, tail => o ++ b ++ glueSegs ps tail

/-- A run of lines none of which opens a block. -/
def OutsideSeg (o : List (List Char)) : Prop := ∀ l ∈ o, scanBegin l = none

/-- The lines of one block, paired with the child that received them: the
first line is the begin marker whose captured label is the child's
XARMOUR_LABEL, and their bytes, concatenated in order, are exactly the
bytes written to the child's stdin. -/
def BlockSeg (b : List (List Char)) (inv : Invocation) : Prop :=
  b.flatten = inv.stdin ∧ ∃ l bs, b = l :: bs ∧ scanBegin l = some inv.envLabel

/-- Each alternating (outside, block) pair matches the corresponding
spawned child, in order. -/
def Decomp : List (List (List Char) × List (List Char)) → List Invocation → Prop
  | [], [] => True
  | (o, b) :: ps, inv :: invs => OutsideSeg o ∧ BlockSeg b inv ∧ Decomp ps invs
  | _ :: _, [] => False
  | [], _ :: _ => False

/-- Induction invariant for the stream decomposition: what the remaining
lines contribute, depending on whether a block is currently open.  With no
block open the remaining consumed lines split into alternating outside and
block segments matching the children spawned from here on; with a block
open they begin with the rest of the current block's lines. -/
def DecompFrom (t : Nat) (sp : Nat → Bool) (oc : Nat → WaitResult)
    (lines : List (List Char)) (st : LoopState) : Prop :=
  match st.cur with
  | none =>
    ∃ ps tail rest newInvs,
      lines = glueSegs ps tail ++ rest ∧
      (runLines t sp oc lines st).leftoverInput = rest.flatten ∧
      (runLines t sp oc lines st).invocations = st.acc ++ newInvs ∧
      Decomp ps newInvs ∧ OutsideSeg tail
  | some inv =>
    ∃ b ps tail rest inv2 newInvs,
      lines = b ++ glueSegs ps tail ++ rest ∧
      (runLines t sp oc lines st).leftoverInput = rest.flatten ∧
      (runLines t sp oc lines st).invocations = st.acc ++ inv2 :: newInvs ∧
      inv2.stdin = inv.stdin ++ b.flatten ∧ inv2.envLabel = inv.envLabel ∧
      Decomp ps newInvs ∧ OutsideSeg tail

/-- Reading of claim C10's words, for comparison with the sscanf matcher
of the source: a line starting with the eleven characters "-----BEGIN "
followed by at least one non-dash byte is a begin marker, and its label is
the maximal run of non-dash bytes after that literal, capped at 1000. -/
def claimBeginMatch (s : List Char) : Option (List Char) :=
  match matchLit (beginLit ++ [' ']) s with
  | none => none
  | some r =>
    let lab := (r.takeWhile fun c => c != '-').take 1000
    if lab = [] then none else some lab

/-- Spawn oracle: every pipe+fork succeeds. -/
def spAll : Nat → Bool := fun _ => true

/-- Spawn oracle: every pipe+fork fails. -/
def spNone : Nat → Bool := fun _ => false

/-- Wait oracle: every child exits 0. -/
def ocAll0 : Nat → WaitResult := fun _ => .exited 0

/-- Wait oracle: every waitpid fails with an error other than EINTR. -/
def ocFailedAll : Nat → WaitResult := fun _ => .failed

/-- Wait oracle: the first child exits 7, later ones exit 0. -/
def ocFirst7 : Nat → WaitResult := fun i => if i = 0 then .exited 7 else .exited 0

/-- Wait oracle: the first child exits 5, later ones exit 0. -/
def ocFirst5 : Nat → WaitResult := fun i => if i = 0 then .exited 5 else .exited 0

/-- Wait oracle: the first child is killed by signal 9, later ones exit 0. -/
def ocSig9 : Nat → WaitResult := fun i => if i = 0 then .signaled 9 else .exited 0

/-- Two well-formed blocks labelled A and B. -/
def inputTwoBlocks : List Char :=
  "-----BEGIN A-----\n-----END A-----\n-----BEGIN B-----\n-----END B-----\n".data

/-- Three well-formed blocks labelled A, B and C. -/
def inputThreeBlocks : List Char :=
  ("-----BEGIN A-----\n-----END A-----\n-----BEGIN B-----\n-----END B-----\n" ++
   "-----BEGIN C-----\n-----END C-----\n").data

/-- One block labelled A surrounded by text outside any block. -/
def inputOneBlock : List Char :=
  "junk\n-----BEGIN A-----\npayload\n-----END A-----\ntrail\n".data

/-- A block that is still open when the input ends. -/
def inputOpenBlock : List Char := "-----BEGIN A-----\ndata\n".data

/-- A single physical line longer than the 1023-character fgets bound: 1023
letters followed by a begin marker, with the only newline at the very end. -/
def longLineInput : List Char :=
  List.replicate (maxLine - 1) 'a' ++ "-----BEGIN A-----\n".data

/-- The child of a block labelled ALPHA, right after its begin marker was
read. -/
def invALPHA : Invocation :=
  { envIndex := 0, envCount := 0, envTimes := some "0",
    envLabel := "ALPHA".data, stdin := "-----BEGIN ALPHA-----\n".data }

/-- A state in the middle of a run: a block labelled ALPHA is open. -/
def stALPHA : LoopState :=
  { cur := some invALPHA, index := 0, count := 0, waited := 0, pipesClosed := 0,
    acc := [] }

/-- The invocation produced by inputOneBlock under a threshold of 3. -/
def invC2 : Invocation :=
  { envIndex := 0, envCount := 0, envTimes := some "3", envLabel := ['A'],
    stdin := "-----BEGIN A-----\npayload\n-----END A-----\n".data }

/-- The ALPHA child after the short end line "-----END ALPHA--" was fed to
it. -/
def invALPHAdone : Invocation :=
  { envIndex := 0, envCount := 0, envTimes := some "0", envLabel := "ALPHA".data,
    stdin := ("-----BEGIN ALPHA-----\n" ++ "-----END ALPHA--\n").data }

/-- The state after the ALPHA block was closed by "-----END ALPHA--" and
its child exited 0. -/
def stClosed : LoopState :=
  { cur := none, index := 1, count := 1, waited := 1, pipesClosed := 1,
    acc := [invALPHAdone] }

theorem matchLit_cons (p : Char) {ps s r : List Char}
    (h : matchLit (p :: ps) s = some r) : ∃ t, s = p :: t ∧ matchLit ps t = some r := by
  match s with
  | [] => simp [matchLit] at h
  | c :: cs =>
    simp only [matchLit] at h
    split at h
    · next hc => subst hc; exact ⟨cs, rfl, h⟩
    · simp at h

/-- A line recognised by the begin format is never recognised by the end
format: the literal parts diverge at the sixth character ('B' vs 'E'). -/
theorem scanBegin_scanEnd {s l : List Char} (h : scanBegin s = some l) :
    scanEnd s = none := by
  unfold scanBegin scanMarker at h
  cases hm : matchLit beginLit s with
  | none => rw [hm] at h; simp at h
  | some r =>
    have hm0 : matchLit ('-' :: '-' :: '-' :: '-' :: '-' :: 'B' :: 'E' :: 'G' :: 'I' :: 'N' :: []) s = some r := by
      simpa [beginLit] using hm
    obtain ⟨t1, hs1, h1⟩ := matchLit_cons '-' hm0
    obtain ⟨t2, hs2, h2⟩ := matchLit_cons '-' h1
    obtain ⟨t3, hs3, h3⟩ := matchLit_cons '-' h2
    obtain ⟨t4, hs4, h4⟩ := matchLit_cons '-' h3
    obtain ⟨t5, hs5, h5⟩ := matchLit_cons '-' h4
    obtain ⟨t6, hs6, _⟩ := matchLit_cons 'B' h5
    subst hs6 hs5 hs4 hs3 hs2 hs1
    simp [scanEnd, scanMarker, endLit, matchLit]

theorem splitLinesAux_flatten (input : List Char) : ∀ (k : Nat) (acc : List Char),
    (splitLinesAux k acc input).flatten = acc ++ input := by
  induction input with
  | nil => intro k acc; by_cases h : acc = [] <;> simp [splitLinesAux, h]
  | cons c rest ih =>
    intro k acc
    by_cases h : c = '\n' ∨ k ≤ 1 <;> simp [splitLinesAux, h, ih]

/-- fgets never loses bytes: the successive buffers concatenate back to
the whole input. -/
theorem readLines_flatten (input : List Char) : (readLines input).flatten = input := by
  simpa using splitLinesAux_flatten input (maxLine - 1) []

theorem splitLinesAux_mem_length (input : List Char) : ∀ (k : Nat) (acc l : List Char),
    1 ≤ k → acc.length + k ≤ maxLine - 1 → l ∈ splitLinesAux k acc input →
    1 ≤ l.length ∧ l.length ≤ maxLine - 1 := by
  induction input with
  | nil =>
    intro k acc l hk hb hm
    by_cases h : acc = []
    · simp [splitLinesAux, h] at hm
    · simp only [splitLinesAux, if_neg h, List.mem_singleton] at hm
      subst hm
      refine ⟨List.length_pos.mpr h, ?_⟩
      omega
  | cons c rest ih =>
    intro k acc l hk hb hm
    by_cases h : c = '\n' ∨ k ≤ 1
    · simp only [splitLinesAux, if_pos h, List.mem_cons] at hm
      rcases hm with hm | hm
      · subst hm
        simp only [List.length_append, List.length_singleton]
        omega
      · exact ih (maxLine - 1) [] l (by norm_num [maxLine]) (by norm_num [maxLine]) hm
    · simp only [splitLinesAux, if_neg h] at hm
      refine ih (k - 1) (acc ++ [c]) l (by omega) ?_ hm
      simp only [List.length_append, List.length_singleton]
      omega

/-- Each fgets buffer is non-empty and holds at most 1023 characters. -/
theorem readLines_mem_length {input l : List Char} (h : l ∈ readLines input) :
    1 ≤ l.length ∧ l.length ≤ maxLine - 1 :=
  splitLinesAux_mem_length input (maxLine - 1) [] l (by norm_num [maxLine])
    (by norm_num [maxLine]) h

/-- Exhaustive description of one loop iteration.  Either: (1) no block is
open and the line matches no begin marker -- the state is unchanged; (2) no
block is open, the line opens a block and the spawn succeeds -- the new
child's environment comes from mkInv and the line itself is its first
stdin bytes; (3) a block is open and the line does not close it -- the line
is appended to the child's stdin; (4) a block is open, the line closes it
and the wait outcome lets the loop continue -- the success counter grows
exactly when the child exited 0; (5) the spawn for a begin marker fails --
the program returns 1; (6) a block is open, the line closes it and the
wait outcome stops the program with the translated status. -/
theorem xarmourStep_shape (t : Nat) (sp : Nat → Bool) (oc : Nat → WaitResult)
    (st : LoopState) (buffer : List Char) :
    (st.cur = none ∧ scanBegin buffer = none ∧
      xarmourStep t sp oc st buffer = .cont st)
  ∨ (∃ bl, st.cur = none ∧ scanBegin buffer = some bl ∧ sp st.acc.length = true ∧
      xarmourStep t sp oc st buffer =
        .cont { st with cur := some { mkInv t st bl with stdin := buffer } })
  ∨ (∃ inv, st.cur = some inv ∧
      xarmourStep t sp oc st buffer =
        .cont { st with cur := some { inv with stdin := inv.stdin ++ buffer } })
  ∨ (∃ inv δ, st.cur = some inv ∧
      xarmourStep t sp oc st buffer =
        .cont { cur := none, index := st.index + 1, count := st.count + δ,
                waited := st.waited + 1, pipesClosed := st.pipesClosed + 1,
                acc := st.acc ++ [{ inv with stdin := inv.stdin ++ buffer }] } ∧
      oc st.acc.length ≠ .failed ∧
      ((δ = 1 ∧ oc st.acc.length = .exited 0) ∨
       (δ = 0 ∧ oc st.acc.length ≠ .exited 0 ∧ t ≠ 0)))
  ∨ (∃ bl, st.cur = none ∧ scanBegin buffer = some bl ∧ sp st.acc.length = false ∧
      xarmourStep t sp oc st buffer = .halt 1 st.acc st.waited st.pipesClosed)
  ∨ (∃ inv, st.cur = some inv ∧
      xarmourStep t sp oc st buffer =
        .halt (translateStatus (oc st.acc.length))
          (st.acc ++ [{ inv with stdin := inv.stdin ++ buffer }])
          (st.waited + 1) (st.pipesClosed + 1) ∧
      oc st.acc.length ≠ .exited 0 ∧
      (oc st.acc.length = .failed ∨ t = 0)) := by
  cases hc : st.cur with
  | none =>
    cases hb : scanBegin buffer with
    | none => exact Or.inl ⟨rfl, rfl, by simp [xarmourStep, hc, hb]⟩
    | some bl =>
      cases hsp : sp st.acc.length with
      | true =>
        refine Or.inr (Or.inl ⟨bl, rfl, rfl, rfl, ?_⟩)
        have he : scanEnd buffer = none := scanBegin_scanEnd hb
        simp [xarmourStep, hc, hb, hsp, feedLine, he, mkInv]
      | false =>
        exact Or.inr (Or.inr (Or.inr (Or.inr (Or.inl
          ⟨bl, rfl, rfl, rfl, by simp [xarmourStep, hc, hb, hsp]⟩))))
  | some inv =>
    have hstep : xarmourStep t sp oc st buffer = feedLine t oc st inv buffer := by
      simp [xarmourStep, hc]
    cases he : scanEnd buffer with
    | none =>
      exact Or.inr (Or.inr (Or.inl ⟨inv, rfl, by simp [hstep, feedLine, he]⟩))
    | some el =>
      by_cases hel : el = inv.envLabel
      · have hcw : xarmourStep t sp oc st buffer =
            closeWait t oc st { inv with stdin := inv.stdin ++ buffer } := by
          simp [hstep, feedLine, he, hel]
        cases ho : oc st.acc.length with
        | failed =>
          refine Or.inr (Or.inr (Or.inr (Or.inr (Or.inr ⟨inv, rfl, ?_, ?_, Or.inl rfl⟩))))
          · simp [hcw, closeWait, ho, translateStatus]
          · simp
        | exited code =>
          by_cases hz : code = 0
          · subst hz
            refine Or.inr (Or.inr (Or.inr (Or.inl ⟨inv, 1, rfl, ?_, ?_, Or.inl ⟨rfl, rfl⟩⟩)))
            · simp [hcw, closeWait, ho]
            · simp
          · by_cases ht : t = 0
            · subst ht
              refine Or.inr (Or.inr (Or.inr (Or.inr (Or.inr
                ⟨inv, rfl, ?_, ?_, Or.inr rfl⟩))))
              · simp [hcw, closeWait, ho, hz, translateStatus]
              · simp [hz]
            · refine Or.inr (Or.inr (Or.inr (Or.inl ⟨inv, 0, rfl, ?_, ?_,
                Or.inr ⟨rfl, ?_, ht⟩⟩)))
              · simp [hcw, closeWait, ho, hz, ht]
              · simp
              · simp [hz]
        | signaled sig =>
          by_cases ht : t = 0
          · subst ht
            refine Or.inr (Or.inr (Or.inr (Or.inr (Or.inr
              ⟨inv, rfl, ?_, ?_, Or.inr rfl⟩))))
            · simp [hcw, closeWait, ho, translateStatus]
            · simp
          · refine Or.inr (Or.inr (Or.inr (Or.inl ⟨inv, 0, rfl, ?_, ?_,
              Or.inr ⟨rfl, ?_, ht⟩⟩)))
            · simp [hcw, closeWait, ho, ht]
            · simp
            · simp
        | other =>
          by_cases ht : t = 0
          · subst ht
            refine Or.inr (Or.inr (Or.inr (Or.inr (Or.inr
              ⟨inv, rfl, ?_, ?_, Or.inr rfl⟩))))
            · simp [hcw, closeWait, ho, translateStatus]
            · simp
          · refine Or.inr (Or.inr (Or.inr (Or.inl ⟨inv, 0, rfl, ?_, ?_,
              Or.inr ⟨rfl, ?_, ht⟩⟩)))
            · simp [hcw, closeWait, ho, ht]
            · simp
            · simp
      · exact Or.inr (Or.inr (Or.inl ⟨inv, rfl, by simp [hstep, feedLine, he, hel]⟩))

theorem countOk_succ (oc : Nat → WaitResult) (n : Nat) :
    countOk oc (n + 1) = countOk oc n + (if oc n = .exited 0 then 1 else 0) := by
  by_cases h : oc n = .exited 0 <;> simp [countOk, List.range_succ, h]

/-- Closing a block always closes the pipe and performs one wait, and ends
either in the program returning or in a clean state with the finished
child appended. -/
theorem closeWait_cases (t : Nat) (oc : Nat → WaitResult) (st : LoopState)
    (inv2 : Invocation) :
    (∃ code, closeWait t oc st inv2 =
      .halt code (st.acc ++ [inv2]) (st.waited + 1) (st.pipesClosed + 1))
  ∨ (∃ δ, closeWait t oc st inv2 =
      .cont { cur := none, index := st.index + 1, count := st.count + δ,
              waited := st.waited + 1, pipesClosed := st.pipesClosed + 1,
              acc := st.acc ++ [inv2] }) := by
  unfold closeWait
  cases oc st.acc.length with
  | failed => exact Or.inl ⟨1, rfl⟩
  | exited code =>
    by_cases hz : code = 0
    · exact Or.inr ⟨1, by simp [hz]⟩
    · by_cases ht : t = 0
      · exact Or.inl ⟨code, by simp [hz, ht]⟩
      · exact Or.inr ⟨0, by simp [hz, ht]⟩
  | signaled sig =>
    by_cases ht : t = 0
    · exact Or.inl ⟨sig + 128, by simp [ht]⟩
    · exact Or.inr ⟨0, by simp [ht]⟩
  | other =>
    by_cases ht : t = 0
    · exact Or.inl ⟨71, by simp [ht]⟩
    · exact Or.inr ⟨0, by simp [ht]⟩

/-- The number of waits already performed never exceeds the run's final
wait count. -/
theorem runLines_waited_mono (t : Nat) (sp : Nat → Bool) (oc : Nat → WaitResult)
    (lines : List (List Char)) : ∀ st : LoopState,
    st.waited ≤ (runLines t sp oc lines st).waitedCount := by
  induction lines with
  | nil => intro st; simp [runLines, finishRun]
  | cons buffer rest ih =>
    intro st
    rcases xarmourStep_shape t sp oc st buffer with
      ⟨-, -, hs⟩ | ⟨bl, -, -, -, hs⟩ | ⟨inv, -, hs⟩ | ⟨inv, δ, -, hs, -, -⟩ |
      ⟨bl, -, -, -, hs⟩ | ⟨inv, -, hs, -, -⟩
    · simpa [runLines, hs] using ih st
    · simpa [runLines, hs] using
        ih { st with cur := some { mkInv t st bl with stdin := buffer } }
    · simpa [runLines, hs] using
        ih { st with cur := some { inv with stdin := inv.stdin ++ buffer } }
    · have h2 := ih { cur := none, index := st.index + 1, count := st.count + δ,
                      waited := st.waited + 1, pipesClosed := st.pipesClosed + 1,
                      acc := st.acc ++ [{ inv with stdin := inv.stdin ++ buffer }] }
      simp only [runLines, hs] at h2 ⊢
      omega
    · simp [runLines, hs]
    · simp [runLines, hs]

/-- An iteration starting with no open block never consults the wait
oracle: a line that opens a block cannot also close it. -/
theorem xarmourStep_cur_none_oc (t : Nat) (sp : Nat → Bool)
    (oc oc' : Nat → WaitResult) (st : LoopState) (buffer : List Char)
    (hcur : st.cur = none) :
    xarmourStep t sp oc st buffer = xarmourStep t sp oc' st buffer := by
  unfold xarmourStep
  rw [hcur]
  cases hb : scanBegin buffer with
  | none => rfl
  | some bl =>
    have he : scanEnd buffer = none := scanBegin_scanEnd hb
    cases hsp : sp st.acc.length <;> simp [feedLine, he]

/-- The run depends on the wait oracle only at the indices of children it
actually waits for. -/
theorem runLines_oc_agree (t : Nat) (sp : Nat → Bool) (oc oc' : Nat → WaitResult)
    (lines : List (List Char)) : ∀ st : LoopState, st.waited = st.acc.length →
    (∀ i, i < (runLines t sp oc lines st).waitedCount → oc i = oc' i) →
    runLines t sp oc lines st = runLines t sp oc' lines st := by
  induction lines with
  | nil => intro st _ _; rfl
  | cons buffer rest ih =>
    intro st hw hagree
    cases hcur : st.cur with
    | none =>
      have hequal := xarmourStep_cur_none_oc t sp oc oc' st buffer hcur
      rcases xarmourStep_shape t sp oc st buffer with
        ⟨-, -, hs⟩ | ⟨bl, -, -, -, hs⟩ | ⟨inv, hcur2, -⟩ | ⟨inv, δ, hcur2, -⟩ |
        ⟨bl, -, -, -, hs⟩ | ⟨inv, hcur2, -⟩
      · simp only [runLines, hs, ← hequal]
        exact ih st hw (by simpa [runLines, hs] using hagree)
      · simp only [runLines, hs, ← hequal]
        refine ih _ (by simpa using hw) ?_
        simpa [runLines, hs] using hagree
      · rw [hcur] at hcur2; exact absurd hcur2 (by simp)
      · rw [hcur] at hcur2; exact absurd hcur2 (by simp)
      · simp [runLines, hs, ← hequal]
      · rw [hcur] at hcur2; exact absurd hcur2 (by simp)
    | some inv =>
      cases he : scanEnd buffer with
      | none =>
        have hs : xarmourStep t sp oc st buffer =
            .cont { st with cur := some { inv with stdin := inv.stdin ++ buffer } } := by
          simp [xarmourStep, hcur, feedLine, he]
        have hs' : xarmourStep t sp oc' st buffer =
            .cont { st with cur := some { inv with stdin := inv.stdin ++ buffer } } := by
          simp [xarmourStep, hcur, feedLine, he]
        simp only [runLines, hs, hs']
        exact ih _ (by simpa using hw) (by simpa [runLines, hs] using hagree)
      | some el =>
        by_cases hel : el = inv.envLabel
        · have hs : xarmourStep t sp oc st buffer =
              closeWait t oc st { inv with stdin := inv.stdin ++ buffer } := by
            simp [xarmourStep, hcur, feedLine, he, hel]
          have hs' : xarmourStep t sp oc' st buffer =
              closeWait t oc' st { inv with stdin := inv.stdin ++ buffer } := by
            simp [xarmourStep, hcur, feedLine, he, hel]
          have hlt : st.acc.length < (runLines t sp oc (buffer :: rest) st).waitedCount := by
            rcases closeWait_cases t oc st { inv with stdin := inv.stdin ++ buffer } with
              ⟨code, hcw⟩ | ⟨δ, hcw⟩
            · simp only [runLines, hs, hcw]
              omega
            · have h2 := runLines_waited_mono t sp oc rest
                { cur := none, index := st.index + 1, count := st.count + δ,
                  waited := st.waited + 1, pipesClosed := st.pipesClosed + 1,
                  acc := st.acc ++ [{ inv with stdin := inv.stdin ++ buffer }] }
              simp only [runLines, hs, hcw]
              simp only at h2
              omega
          have hoc : oc st.acc.length = oc' st.acc.length := hagree _ hlt
          have hequal : closeWait t oc st { inv with stdin := inv.stdin ++ buffer } =
              closeWait t oc' st { inv with stdin := inv.stdin ++ buffer } := by
            unfold closeWait; rw [hoc]
          rcases closeWait_cases t oc st { inv with stdin := inv.stdin ++ buffer } with
            ⟨code, hcw⟩ | ⟨δ, hcw⟩
          · simp [runLines, hs, hs', ← hequal, hcw]
          · simp only [runLines, hs, hs', ← hequal, hcw]
            refine ih _ (by simp; omega) ?_
            simpa [runLines, hs, hcw] using hagree
        · have hs : xarmourStep t sp oc st buffer =
              .cont { st with cur := some { inv with stdin := inv.stdin ++ buffer } } := by
            simp [xarmourStep, hcur, feedLine, he, hel]
          have hs' : xarmourStep t sp oc' st buffer =
              .cont { st with cur := some { inv with stdin := inv.stdin ++ buffer } } := by
            simp [xarmourStep, hcur, feedLine, he, hel]
          simp only [runLines, hs, hs']
          exact ih _ (by simpa using hw) (by simpa [runLines, hs] using hagree)

/-- With a threshold configured and no resource failures (every pipe+fork
succeeds and no waitpid fails), the loop never returns early: it consumes
all input. -/
theorem runLines_no_halt (t : Nat) (sp : Nat → Bool) (oc : Nat → WaitResult)
    (ht : t ≠ 0) (hsp : ∀ i, sp i = true) (hoc : ∀ i, oc i ≠ .failed)
    (lines : List (List Char)) : ∀ st : LoopState,
    (runLines t sp oc lines st).completed = true ∧
    (runLines t sp oc lines st).leftoverInput = [] := by
  induction lines with
  | nil => intro st; simp [runLines, finishRun]
  | cons buffer rest ih =>
    intro st
    rcases xarmourStep_shape t sp oc st buffer with
      ⟨-, -, hs⟩ | ⟨bl, -, -, -, hs⟩ | ⟨inv, -, hs⟩ | ⟨inv, δ, -, hs, -, -⟩ |
      ⟨bl, -, -, hspf, -⟩ | ⟨inv, -, -, hne, hor⟩
    · simpa [runLines, hs] using ih st
    · simpa [runLines, hs] using
        ih { st with cur := some { mkInv t st bl with stdin := buffer } }
    · simpa [runLines, hs] using
        ih { st with cur := some { inv with stdin := inv.stdin ++ buffer } }
    · simpa [runLines, hs] using
        ih { cur := none, index := st.index + 1, count := st.count + δ,
             waited := st.waited + 1, pipesClosed := st.pipesClosed + 1,
             acc := st.acc ++ [{ inv with stdin := inv.stdin ++ buffer }] }
    · exact absurd (hsp st.acc.length) (by simp [hspf])
    · rcases hor with hor | hor
      · exact absurd hor (hoc st.acc.length)
      · exact absurd hor ht

/-- The final value of the success counter is exactly the number of
waited-for children that exited 0. -/
theorem runLines_successCount (t : Nat) (sp : Nat → Bool) (oc : Nat → WaitResult)
    (lines : List (List Char)) : ∀ st : LoopState,
    st.waited = st.acc.length → st.count = countOk oc st.waited →
    (runLines t sp oc lines st).successCount =
      countOk oc (runLines t sp oc lines st).waitedCount := by
  induction lines with
  | nil => intro st hw hcnt; simpa [runLines, finishRun] using hcnt
  | cons buffer rest ih =>
    intro st hw hcnt
    rcases xarmourStep_shape t sp oc st buffer with
      ⟨-, -, hs⟩ | ⟨bl, -, -, -, hs⟩ | ⟨inv, -, hs⟩ | ⟨inv, δ, -, hs, -, hδ⟩ |
      ⟨bl, -, -, -, hs⟩ | ⟨inv, -, hs, hne, -⟩
    · simp only [runLines, hs]
      exact ih st hw hcnt
    · simp only [runLines, hs]
      exact ih { st with cur := some { mkInv t st bl with stdin := buffer } } hw hcnt
    · simp only [runLines, hs]
      exact ih { st with cur := some { inv with stdin := inv.stdin ++ buffer } } hw hcnt
    · simp only [runLines, hs]
      rw [hw] at hcnt
      refine ih _ (by simp; omega) ?_
      rcases hδ with ⟨hδ1, hoc0⟩ | ⟨hδ0, hoc0, -⟩
      · subst hδ1
        show st.count + 1 = countOk oc (st.waited + 1)
        rw [countOk_succ, hw]
        simp [hoc0, hcnt]
      · subst hδ0
        show st.count + 0 = countOk oc (st.waited + 1)
        rw [countOk_succ, hw]
        simp [hoc0, hcnt]
    · simpa [runLines, hs, hw] using hcnt
    · simp only [runLines, hs]
      rw [hw] at hcnt
      show st.count = countOk oc (st.waited + 1)
      rw [countOk_succ, hw]
      simp [hne, hcnt]

/-- When the loop consumes all input, the final status is the one computed
after the loop: always 0 without a threshold, and with a threshold 1 or 0
according to whether the success count fell short of it. -/
theorem runLines_completed_exit (t : Nat) (sp : Nat → Bool) (oc : Nat → WaitResult)
    (lines : List (List Char)) : ∀ st : LoopState,
    (runLines t sp oc lines st).completed = true →
    (runLines t sp oc lines st).exitCode =
      (if t ≠ 0 then (if (runLines t sp oc lines st).successCount < t then 1 else 0)
       else 0) := by
  induction lines with
  | nil => intro st _; simp [runLines, finishRun]
  | cons buffer rest ih =>
    intro st hcomp
    rcases xarmourStep_shape t sp oc st buffer with
      ⟨-, -, hs⟩ | ⟨bl, -, -, -, hs⟩ | ⟨inv, -, hs⟩ | ⟨inv, δ, -, hs, -, -⟩ |
      ⟨bl, -, -, -, hs⟩ | ⟨inv, -, hs, -, -⟩
    · simp only [runLines, hs] at hcomp ⊢; exact ih _ hcomp
    · simp only [runLines, hs] at hcomp ⊢; exact ih _ hcomp
    · simp only [runLines, hs] at hcomp ⊢; exact ih _ hcomp
    · simp only [runLines, hs] at hcomp ⊢; exact ih _ hcomp
    · simp [runLines, hs] at hcomp
    · simp [runLines, hs] at hcomp

/-- close(pipefd[WRITE_FD]) and waitpid always happen together: the number
of write ends closed equals the number of children waited for. -/
theorem runLines_pipes (t : Nat) (sp : Nat → Bool) (oc : Nat → WaitResult)
    (lines : List (List Char)) : ∀ st : LoopState,
    st.pipesClosed = st.waited →
    (runLines t sp oc lines st).pipesClosed = (runLines t sp oc lines st).waitedCount := by
  induction lines with
  | nil => intro st hp; simpa [runLines, finishRun] using hp
  | cons buffer rest ih =>
    intro st hp
    rcases xarmourStep_shape t sp oc st buffer with
      ⟨-, -, hs⟩ | ⟨bl, -, -, -, hs⟩ | ⟨inv, -, hs⟩ | ⟨inv, δ, -, hs, -, -⟩ |
      ⟨bl, -, -, -, hs⟩ | ⟨inv, -, hs, -, -⟩
    · simp only [runLines, hs]; exact ih st hp
    · simp only [runLines, hs]; exact ih _ (by simpa using hp)
    · simp only [runLines, hs]; exact ih _ (by simpa using hp)
    · simp only [runLines, hs]; exact ih _ (by simp; omega)
    · simpa [runLines, hs] using hp
    · simpa [runLines, hs] using hp

/-- Every spawned child has XARMOUR_TIMES set, to the decimal rendering of
the times variable (0 when -t was not given). -/
theorem runLines_envTimes (t : Nat) (sp : Nat → Bool) (oc : Nat → WaitResult)
    (lines : List (List Char)) : ∀ st : LoopState,
    (∀ inv ∈ st.acc, inv.envTimes = some (Nat.repr t)) →
    (∀ inv0, st.cur = some inv0 → inv0.envTimes = some (Nat.repr t)) →
    ∀ inv ∈ (runLines t sp oc lines st).invocations, inv.envTimes = some (Nat.repr t) := by
  induction lines with
  | nil =>
    intro st hacc hcur inv hm
    simp only [runLines, finishRun] at hm
    rcases List.mem_append.mp hm with hm | hm
    · exact hacc inv hm
    · cases hc : st.cur with
      | none => rw [hc] at hm; simp at hm
      | some inv0 =>
        rw [hc] at hm
        simp at hm
        exact hm ▸ hcur inv0 hc
  | cons buffer rest ih =>
    intro st hacc hcur inv hm
    rcases xarmourStep_shape t sp oc st buffer with
      ⟨-, -, hs⟩ | ⟨bl, -, -, -, hs⟩ | ⟨inv1, hc, hs⟩ | ⟨inv1, δ, hc, hs, -, -⟩ |
      ⟨bl, -, -, -, hs⟩ | ⟨inv1, hc, hs, -, -⟩
    · exact ih st hacc hcur inv (by simpa [runLines, hs] using hm)
    · refine ih { st with cur := some { mkInv t st bl with stdin := buffer } } hacc ?_ inv
        (by simpa [runLines, hs] using hm)
      intro inv0 h0
      rw [← Option.some.inj h0]
      rfl
    · refine ih { st with cur := some { inv1 with stdin := inv1.stdin ++ buffer } } hacc ?_ inv
        (by simpa [runLines, hs] using hm)
      intro inv0 h0
      rw [← Option.some.inj h0]
      exact hcur inv1 hc
    · refine ih { cur := none, index := st.index + 1, count := st.count + δ,
                  waited := st.waited + 1, pipesClosed := st.pipesClosed + 1,
                  acc := st.acc ++ [{ inv1 with stdin := inv1.stdin ++ buffer }] } ?_ ?_ inv
        (by simpa [runLines, hs] using hm)
      · intro inv2 h2
        rcases List.mem_append.mp h2 with h2 | h2
        · exact hacc inv2 h2
        · rw [List.mem_singleton] at h2
          subst h2
          exact hcur inv1 hc
      · intro inv0 h0
        exact Option.noConfusion h0
    · simp only [runLines, hs] at hm
      exact hacc inv hm
    · simp only [runLines, hs] at hm
      rcases List.mem_append.mp hm with h2 | h2
      · exact hacc inv h2
      · rw [List.mem_singleton] at h2
        subst h2
        exact hcur inv1 hc

/-- Without a threshold, the first waited-for child that does not exit 0
stops the program at the translated status, with no further child ever
spawned: the failing child (number k) is the last invocation. -/
theorem runLines_first_failure (sp : Nat → Bool) (oc : Nat → WaitResult) (k : Nat)
    (hsp : ∀ i, sp i = true) (hok : ∀ i, i < k → oc i = .exited 0)
    (hk : oc k ≠ .exited 0) (lines : List (List Char)) : ∀ st : LoopState,
    st.waited = st.acc.length → st.acc.length ≤ k →
    k < (runLines 0 sp oc lines st).waitedCount →
    (runLines 0 sp oc lines st).exitCode = translateStatus (oc k) ∧
    (runLines 0 sp oc lines st).invocations.length = k + 1 ∧
    (runLines 0 sp oc lines st).completed = false := by
  induction lines with
  | nil =>
    intro st hw hle hlt
    simp only [runLines, finishRun] at hlt
    omega
  | cons buffer rest ih =>
    intro st hw hle hlt
    rcases xarmourStep_shape 0 sp oc st buffer with
      ⟨-, -, hs⟩ | ⟨bl, -, -, -, hs⟩ | ⟨inv, -, hs⟩ | ⟨inv, δ, -, hs, -, hδ⟩ |
      ⟨bl, -, -, hspf, -⟩ | ⟨inv, -, hs, hne, -⟩
    · simp only [runLines, hs] at hlt ⊢
      exact ih st hw hle hlt
    · simp only [runLines, hs] at hlt ⊢
      exact ih _ (by simpa using hw) (by simpa using hle) hlt
    · simp only [runLines, hs] at hlt ⊢
      exact ih _ (by simpa using hw) (by simpa using hle) hlt
    · rcases hδ with ⟨hδ1, hoc0⟩ | ⟨-, -, ht0⟩
      · have hltk : st.acc.length < k := by
          rcases Nat.lt_or_ge st.acc.length k with h | h
          · exact h
          · exact absurd (le_antisymm hle h ▸ hoc0) hk
        simp only [runLines, hs] at hlt ⊢
        refine ih _ (by simp; omega) (by simp; omega) hlt
      · exact absurd rfl ht0
    · exact absurd (hsp st.acc.length) (by simp [hspf])
    · have hek : st.acc.length = k := by
        rcases Nat.lt_or_ge st.acc.length k with h | h
        · exact absurd (hok _ h) hne
        · exact le_antisymm hle h
      simp only [runLines, hs, hek]
      simp [hek]

theorem outsideSeg_nil : OutsideSeg [] := by intro l hl; simp at hl

theorem outsideSeg_cons {l : List Char} {o : List (List Char)}
    (hl : scanBegin l = none) (ho : OutsideSeg o) : OutsideSeg (l :: o) := by
  intro x hx
  rcases List.mem_cons.mp hx with rfl | hx
  · exact hl
  · exact ho x hx

/-- Provided every spawn succeeds, every run decomposes its consumed input
into alternating outside and block segments: block bytes go to their
block's child verbatim and in order, outside lines go nowhere. -/
theorem runLines_decomp (t : Nat) (sp : Nat → Bool) (oc : Nat → WaitResult)
    (hsp : ∀ i, sp i = true) (lines : List (List Char)) :
    ∀ st : LoopState, DecompFrom t sp oc lines st := by
  induction lines with
  | nil =>
    intro st
    cases hc : st.cur with
    | none =>
      simp only [DecompFrom, hc]
      refine ⟨[], [], [], [], by simp [glueSegs], ?_, ?_, trivial, outsideSeg_nil⟩
      · simp [runLines, finishRun]
      · simp [runLines, finishRun, hc]
    | some inv =>
      simp only [DecompFrom, hc]
      refine ⟨[], [], [], [], inv, [], by simp [glueSegs], ?_, ?_, by simp, rfl,
        trivial, outsideSeg_nil⟩
      · simp [runLines, finishRun]
      · simp [runLines, finishRun, hc]
  | cons buffer rest' ih =>
    intro st
    rcases xarmourStep_shape t sp oc st buffer with
      ⟨hcur, hb, hs⟩ | ⟨bl, hcur, hb, -, hs⟩ | ⟨inv1, hcur, hs⟩ | ⟨inv1, δ, hcur, hs, -, -⟩ |
      ⟨bl, hcur, -, hspf, -⟩ | ⟨inv1, hcur, hs, -, -⟩
    · -- outside line, no marker: state unchanged
      have h := ih st
      simp only [DecompFrom, hcur] at h ⊢
      obtain ⟨ps, tail, rest, newInvs, h1, h2, h3, h4, h5⟩ := h
      cases ps with
      | nil =>
        refine ⟨[], buffer :: tail, rest, newInvs, ?_, ?_, ?_, h4, outsideSeg_cons hb h5⟩
        · simp only [glueSegs] at h1 ⊢
          simp [h1]
        · simpa [runLines, hs] using h2
        · simpa [runLines, hs] using h3
      | cons p ps' =>
        obtain ⟨o, b⟩ := p
        cases newInvs with
        | nil => exact absurd h4 (by simp [Decomp])
        | cons i invs =>
          obtain ⟨h4o, h4b, h4d⟩ := h4
          refine ⟨(buffer :: o, b) :: ps', tail, rest, i :: invs, ?_, ?_, ?_,
            ⟨outsideSeg_cons hb h4o, h4b, h4d⟩, h5⟩
          · simp only [glueSegs] at h1 ⊢
            simp [h1]
          · simpa [runLines, hs] using h2
          · simpa [runLines, hs] using h3
    · -- begin marker opens a block
      have h := ih { st with cur := some { mkInv t st bl with stdin := buffer } }
      simp only [DecompFrom] at h
      obtain ⟨b, ps, tail, rest, inv2, newInvs, h1, h2, h3, h4, h5, h6, h7⟩ := h
      simp only [DecompFrom, hcur]
      refine ⟨([], buffer :: b) :: ps, tail, rest, inv2 :: newInvs, ?_, ?_, ?_,
        ⟨outsideSeg_nil, ?_, h6⟩, h7⟩
      · simp only [glueSegs]
        simp [h1]
      · simpa [runLines, hs] using h2
      · simpa [runLines, hs] using h3
      · refine ⟨?_, buffer, b, rfl, ?_⟩
        · simp only [List.flatten_cons]
          simp [h4]
        · rw [hb, h5]
          rfl
    · -- open block, line is not its end marker: forwarded
      have h := ih { st with cur := some { inv1 with stdin := inv1.stdin ++ buffer } }
      simp only [DecompFrom] at h
      obtain ⟨b, ps, tail, rest, inv2, newInvs, h1, h2, h3, h4, h5, h6, h7⟩ := h
      simp only [DecompFrom, hcur]
      refine ⟨buffer :: b, ps, tail, rest, inv2, newInvs, ?_, ?_, ?_, ?_, h5, h6, h7⟩
      · simp [h1]
      · simpa [runLines, hs] using h2
      · simpa [runLines, hs] using h3
      · simp [h4]
    · -- end marker closes the block, run continues
      have h := ih { cur := none, index := st.index + 1, count := st.count + δ,
                     waited := st.waited + 1, pipesClosed := st.pipesClosed + 1,
                     acc := st.acc ++ [{ inv1 with stdin := inv1.stdin ++ buffer }] }
      simp only [DecompFrom] at h
      obtain ⟨ps, tail, rest, newInvs, h1, h2, h3, h4, h5⟩ := h
      simp only [DecompFrom, hcur]
      refine ⟨[buffer], ps, tail, rest, { inv1 with stdin := inv1.stdin ++ buffer },
        newInvs, ?_, ?_, ?_, by simp, rfl, h4, h5⟩
      · simp [h1]
      · simpa [runLines, hs] using h2
      · have h3' := h3
        rw [List.append_assoc] at h3'
        simpa [runLines, hs] using h3'
    · exact absurd (hsp st.acc.length) (by simp [hspf])
    · -- end marker closes the block, run returns
      simp only [DecompFrom, hcur]
      refine ⟨[buffer], [], [], rest', { inv1 with stdin := inv1.stdin ++ buffer },
        [], ?_, ?_, ?_, by simp, rfl, trivial, outsideSeg_nil⟩
      · simp [glueSegs]
      · simp [runLines, hs]
      · simp [runLines, hs]

theorem matchLit_self_append (lit : List Char) :
    ∀ r : List Char, matchLit lit (lit ++ r) = some r := by
  induction lit with
  | nil => intro r; rfl
  | cons p ps ih => intro r; simp [matchLit, ih]

theorem dropWhile_ws_append (w : List Char) (c : Char) (t3 : List Char)
    (hw : ∀ x ∈ w, isWSpace x = true) (hcw : isWSpace c = false) :
    (w ++ c :: t3).dropWhile (fun x => isWSpace x) = c :: t3 := by
  induction w with
  | nil => simp [List.dropWhile_cons, hcw]
  | cons x xs ih =>
    have hx : isWSpace x = true := hw x (by simp)
    simp only [List.cons_append, List.dropWhile_cons, hx, if_pos]
    exact ih fun y hy => hw y (by simp [hy])

/-- The sscanf matcher accepts the literal part, then any whitespace run,
then captures the maximal non-dash run (capped at 1000) as soon as its
first character is neither whitespace nor a dash; no trailing dashes are
required. -/
theorem scanMarker_lit_append (lit w t3 : List Char) (c : Char)
    (hw : ∀ x ∈ w, isWSpace x = true) (hcw : isWSpace c = false) (hcd : c ≠ '-') :
    scanMarker lit (lit ++ (w ++ c :: t3)) =
      some (((c :: t3).takeWhile fun x => x != '-').take 1000) := by
  unfold scanMarker
  rw [matchLit_self_append]
  have h2 : (w ++ c :: t3).dropWhile (fun x => isWSpace x) = c :: t3 :=
    dropWhile_ws_append w c t3 hw hcw
  simp only [h2]
  have h1 : ((c :: t3).takeWhile fun x => x != '-') =
      c :: (t3.takeWhile fun x => x != '-') := by
    simp [List.takeWhile_cons, hcd]
  rw [h1]
  simp

/-- C1 (counterexample): with a threshold configured (times = 1), a pipe or
fork failure (SpawnFailed) and a waitpid failure (WaitFailed) do NOT let
scanning continue: the run returns 1 at once, with input still unread, so
not all remaining input is processed. -/
theorem claim_C1_counterexample :
    (xarmourMain 1 spNone ocAll0 inputTwoBlocks).exitCode = 1 ∧
    (xarmourMain 1 spNone ocAll0 inputTwoBlocks).completed = false ∧
    (xarmourMain 1 spNone ocAll0 inputTwoBlocks).leftoverInput ≠ [] ∧
    (xarmourMain 1 spAll ocFailedAll inputTwoBlocks).exitCode = 1 ∧
    (xarmourMain 1 spAll ocFailedAll inputTwoBlocks).completed = false ∧
    (xarmourMain 1 spAll ocFailedAll inputTwoBlocks).leftoverInput ≠ [] :=
  ⟨by decide, by decide, by decide, by decide, by decide, by decide⟩

/-- C1 (amended): when a threshold is configured, every non-success
termination outcome observed through a successful wait (nonzero exit,
signal, or unrecognized status) is recorded without incrementing the
success counter and scanning continues, so all remaining input is
processed; but SpawnFailed (pipe or fork failure) and WaitFailed (waitpid
failing with an error other than EINTR) abort the run immediately even
with a threshold set. -/
theorem claim_C1 (t : Nat) (sp : Nat → Bool) (oc : Nat → WaitResult)
    (input : List Char) (ht : t ≠ 0) (hsp : ∀ i, sp i = true)
    (hoc : ∀ i, oc i ≠ .failed) :
    (xarmourMain t sp oc input).completed = true ∧
    (xarmourMain t sp oc input).leftoverInput = [] ∧
    (xarmourMain t sp oc input).successCount =
      countOk oc (xarmourMain t sp oc input).waitedCount :=
  ⟨(runLines_no_halt t sp oc ht hsp hoc (readLines input) initState).1,
   (runLines_no_halt t sp oc ht hsp hoc (readLines input) initState).2,
   runLines_successCount t sp oc (readLines input) initState rfl
     (by simp [countOk, initState])⟩

/-- C1 (witness): a run with times = 1 whose first child is killed by
signal 9 still consumes all input; its success count is the number of
children that exited 0. -/
theorem claim_C1_witness :
    (1 : Nat) ≠ 0 ∧
    (xarmourMain 1 spAll ocSig9 inputTwoBlocks).completed = true ∧
    (xarmourMain 1 spAll ocSig9 inputTwoBlocks).leftoverInput = [] ∧
    (xarmourMain 1 spAll ocSig9 inputTwoBlocks).successCount =
      countOk ocSig9 (xarmourMain 1 spAll ocSig9 inputTwoBlocks).waitedCount := by
  have h := claim_C1 1 spAll ocSig9 inputTwoBlocks (by decide) (fun i => rfl)
    (fun i => by by_cases hi : i = 0 <;> simp [ocSig9, hi])
  exact ⟨by decide, h.1, h.2.1, h.2.2⟩

/-- C2 (counterexample): the child of a run with no threshold configured
sees XARMOUR_TIMES set to "0", which is neither unset nor empty. -/
theorem claim_C2_counterexample :
    (xarmourMain 0 spAll ocAll0 inputOneBlock).invocations.map
      (fun inv => inv.envTimes) = [some "0"] ∧
    (some "0" : Option String) ≠ none ∧ (some "0" : Option String) ≠ some "" :=
  ⟨by decide, by decide, by decide⟩

/-- C2 (amended): XARMOUR_TIMES is set in every spawned child's
environment unconditionally: to the decimal threshold when -t or --times was
given, and to "0" when no threshold was configured. -/
theorem claim_C2 (t : Nat) (sp : Nat → Bool) (oc : Nat → WaitResult)
    (input : List Char) (inv : Invocation)
    (hm : inv ∈ (xarmourMain t sp oc input).invocations) :
    inv.envTimes = some (Nat.repr t) :=
  runLines_envTimes t sp oc (readLines input) initState
    (by intro inv2 h2; simp [initState] at h2)
    (by intro inv0 h0; simp [initState] at h0) inv hm

/-- C2 (witness): the child of inputOneBlock under -t 3 carries
XARMOUR_TIMES="3". -/
theorem claim_C2_witness :
    invC2 ∈ (xarmourMain 3 spAll ocAll0 inputOneBlock).invocations ∧
    invC2.envTimes = some (Nat.repr 3) := by
  have hm : invC2 ∈ (xarmourMain 3 spAll ocAll0 inputOneBlock).invocations := by decide
  exact ⟨hm, claim_C2 3 spAll ocAll0 inputOneBlock invC2 hm⟩

/-- C3: with the threshold unset, the first block whose child does not
exit 0 ends the whole run immediately with the translated status -- the
child's exit code c when it exited with c ≠ 0, and 128 plus the signal
number when it was killed by a signal -- and the command is never invoked
for any later block: the failing child (number k, the first k children
being the ones waited for, all earlier ones having exited 0) is the last
invocation of the run. -/
theorem claim_C3 (sp : Nat → Bool) (oc : Nat → WaitResult) (input : List Char)
    (k c s : Nat) (hsp : ∀ i, sp i = true)
    (hok : ∀ i, i < k → oc i = .exited 0)
    (hkw : k < (xarmourMain 0 sp oc input).waitedCount) :
    (oc k = .exited c → c ≠ 0 →
      (xarmourMain 0 sp oc input).exitCode = c ∧
      (xarmourMain 0 sp oc input).invocations.length = k + 1 ∧
      (xarmourMain 0 sp oc input).completed = false) ∧
    (oc k = .signaled s →
      (xarmourMain 0 sp oc input).exitCode = s + 128 ∧
      (xarmourMain 0 sp oc input).invocations.length = k + 1 ∧
      (xarmourMain 0 sp oc input).completed = false) := by
  constructor
  · intro hoc hc
    have hk : oc k ≠ .exited 0 := by rw [hoc]; simp [hc]
    have h := runLines_first_failure sp oc k hsp hok hk (readLines input) initState
      rfl (Nat.zero_le k) hkw
    rw [hoc] at h
    exact ⟨h.1, h.2.1, h.2.2⟩
  · intro hoc
    have hk : oc k ≠ .exited 0 := by rw [hoc]; simp
    have h := runLines_first_failure sp oc k hsp hok hk (readLines input) initState
      rfl (Nat.zero_le k) hkw
    rw [hoc] at h
    exact ⟨h.1, h.2.1, h.2.2⟩

/-- C3 (witness): two blocks, block 1's child exits 7: the run exits 7 and
block 2's command is never spawned (exactly one invocation). -/
theorem claim_C3_witness :
    (∀ i, spAll i = true) ∧ (∀ i, i < 0 → ocFirst7 i = .exited 0) ∧
    0 < (xarmourMain 0 spAll ocFirst7 inputTwoBlocks).waitedCount ∧
    ((ocFirst7 0 = .exited 7 → 7 ≠ 0 →
      (xarmourMain 0 spAll ocFirst7 inputTwoBlocks).exitCode = 7 ∧
      (xarmourMain 0 spAll ocFirst7 inputTwoBlocks).invocations.length = 0 + 1 ∧
      (xarmourMain 0 spAll ocFirst7 inputTwoBlocks).completed = false) ∧
     (ocFirst7 0 = .signaled 9 →
      (xarmourMain 0 spAll ocFirst7 inputTwoBlocks).exitCode = 9 + 128 ∧
      (xarmourMain 0 spAll ocFirst7 inputTwoBlocks).invocations.length = 0 + 1 ∧
      (xarmourMain 0 spAll ocFirst7 inputTwoBlocks).completed = false)) :=
  ⟨fun i => rfl, fun i hi => absurd hi (Nat.not_lt_zero i), by decide,
   claim_C3 spAll ocFirst7 inputTwoBlocks 0 7 9 (fun i => rfl)
     (fun i hi => absurd hi (Nat.not_lt_zero i)) (by decide)⟩

/-- C4: with threshold t, once all input is consumed the run exits 0 iff
at least t children exited 0, and exits 1 otherwise. -/
theorem claim_C4 (t : Nat) (sp : Nat → Bool) (oc : Nat → WaitResult)
    (input : List Char) (ht : 1 ≤ t)
    (hcomp : (xarmourMain t sp oc input).completed = true) :
    (xarmourMain t sp oc input).successCount =
      countOk oc (xarmourMain t sp oc input).waitedCount ∧
    ((xarmourMain t sp oc input).exitCode = 0 ↔
      t ≤ countOk oc (xarmourMain t sp oc input).waitedCount) ∧
    ((xarmourMain t sp oc input).exitCode = 1 ↔
      countOk oc (xarmourMain t sp oc input).waitedCount < t) := by
  have hcnt := runLines_successCount t sp oc (readLines input) initState rfl
    (by simp [countOk, initState])
  have hex := runLines_completed_exit t sp oc (readLines input) initState hcomp
  have ht0 : t ≠ 0 := by omega
  rw [if_pos ht0] at hex
  simp only [xarmourMain]
  refine ⟨hcnt, ?_, ?_⟩ <;> rw [hex, ← hcnt] <;> split <;> omega

/-- C4 (witness): three blocks where block 1 fails and blocks 2-3 succeed:
with times = 2 the run exits 0 with the command invoked 3 times; with
times = 3 it exits 1. -/
theorem claim_C4_witness :
    (1 ≤ 2 ∧ (xarmourMain 2 spAll ocFirst5 inputThreeBlocks).completed = true ∧
      ((xarmourMain 2 spAll ocFirst5 inputThreeBlocks).exitCode = 0 ↔
        2 ≤ countOk ocFirst5 (xarmourMain 2 spAll ocFirst5 inputThreeBlocks).waitedCount)) ∧
    (xarmourMain 2 spAll ocFirst5 inputThreeBlocks).exitCode = 0 ∧
    (xarmourMain 2 spAll ocFirst5 inputThreeBlocks).invocations.length = 3 ∧
    (1 ≤ 3 ∧ (xarmourMain 3 spAll ocFirst5 inputThreeBlocks).completed = true ∧
      ((xarmourMain 3 spAll ocFirst5 inputThreeBlocks).exitCode = 1 ↔
        countOk ocFirst5 (xarmourMain 3 spAll ocFirst5 inputThreeBlocks).waitedCount < 3)) ∧
    (xarmourMain 3 spAll ocFirst5 inputThreeBlocks).exitCode = 1 :=
  ⟨⟨by decide, by decide,
      (claim_C4 2 spAll ocFirst5 inputThreeBlocks (by decide) (by decide)).2.1⟩,
   by decide, by decide,
   ⟨by decide, by decide,
      (claim_C4 3 spAll ocFirst5 inputThreeBlocks (by decide) (by decide)).2.2⟩,
   by decide⟩

/-- C5: provided every spawn succeeds, the consumed input decomposes into
alternating outside and block segments: every line of each block -- begin
marker, content, end marker -- is written to that block's child in the
order read (the child's stdin is byte-equal to the block's full text), and
no line outside every block is written to any child (outside lines are
exactly those matching no begin marker while no block is open). -/
theorem claim_C5 (t : Nat) (sp : Nat → Bool) (oc : Nat → WaitResult)
    (input : List Char) (hsp : ∀ i, sp i = true) :
    ∃ ps tail rest,
      readLines input = glueSegs ps tail ++ rest ∧
      input = (glueSegs ps tail).flatten ++ (xarmourMain t sp oc input).leftoverInput ∧
      (xarmourMain t sp oc input).leftoverInput = rest.flatten ∧
      Decomp ps (xarmourMain t sp oc input).invocations ∧
      OutsideSeg tail := by
  have h := runLines_decomp t sp oc hsp (readLines input) initState
  simp only [DecompFrom, initState] at h
  obtain ⟨ps, tail, rest, newInvs, h1, h2, h3, h4, h5⟩ := h
  simp only [List.nil_append] at h3
  refine ⟨ps, tail, rest, h1, ?_, h2, ?_, h5⟩
  · calc input = (readLines input).flatten := (readLines_flatten input).symm
      _ = (glueSegs ps tail ++ rest).flatten := by rw [h1]
      _ = (glueSegs ps tail).flatten ++ rest.flatten := by simp
      _ = (glueSegs ps tail).flatten ++ (xarmourMain t sp oc input).leftoverInput := by
          simp only [xarmourMain, initState]
          rw [h2]
  · simp only [xarmourMain, initState]
    rw [h3]
    exact h4

/-- C5 (witness): the decomposition at a run with one block surrounded by
outside text. -/
theorem claim_C5_witness :
    (∀ i, spAll i = true) ∧
    ∃ ps tail rest,
      readLines inputOneBlock = glueSegs ps tail ++ rest ∧
      inputOneBlock = (glueSegs ps tail).flatten ++
        (xarmourMain 0 spAll ocAll0 inputOneBlock).leftoverInput ∧
      (xarmourMain 0 spAll ocAll0 inputOneBlock).leftoverInput = rest.flatten ∧
      Decomp ps (xarmourMain 0 spAll ocAll0 inputOneBlock).invocations ∧
      OutsideSeg tail :=
  ⟨fun _ => rfl, claim_C5 0 spAll ocAll0 inputOneBlock (fun _ => rfl)⟩

/-- C6: a block opened with label L is closed only by an end marker whose
captured label is byte-for-byte equal to L: an end line with any other
label leaves the same block open and is forwarded to the child as
ordinary content, while an end line with the equal label closes the block
(the iteration ends with no block open or the program returning). -/
theorem claim_C6 (t : Nat) (sp : Nat → Bool) (oc : Nat → WaitResult)
    (st : LoopState) (inv : Invocation) (buffer el : List Char)
    (hcur : st.cur = some inv) (he : scanEnd buffer = some el) :
    (el ≠ inv.envLabel →
      xarmourStep t sp oc st buffer =
        .cont { st with cur := some { inv with stdin := inv.stdin ++ buffer } }) ∧
    (el = inv.envLabel → StepCloses (xarmourStep t sp oc st buffer)) := by
  constructor
  · intro hel
    simp [xarmourStep, hcur, feedLine, he, hel]
  · intro hel
    have hs : xarmourStep t sp oc st buffer =
        closeWait t oc st { inv with stdin := inv.stdin ++ buffer } := by
      simp [xarmourStep, hcur, feedLine, he, hel]
    rw [hs]
    rcases closeWait_cases t oc st { inv with stdin := inv.stdin ++ buffer } with
      ⟨code, hcw⟩ | ⟨δ, hcw⟩
    · rw [hcw]; trivial
    · rw [hcw]; rfl

/-- C6 (witness): inside a block labelled ALPHA, the line
"-----END BETA-----" does not close the block and is forwarded as content;
an end line with label ALPHA does close it. -/
theorem claim_C6_witness :
    stALPHA.cur = some invALPHA ∧
    scanEnd "-----END BETA-----\n".data = some "BETA".data ∧
    xarmourStep 0 spAll ocAll0 stALPHA "-----END BETA-----\n".data =
      .cont { stALPHA with cur := some { invALPHA with
        stdin := invALPHA.stdin ++ "-----END BETA-----\n".data } } ∧
    (("BETA".data ≠ invALPHA.envLabel →
      xarmourStep 0 spAll ocAll0 stALPHA "-----END BETA-----\n".data =
        .cont { stALPHA with cur := some { invALPHA with
          stdin := invALPHA.stdin ++ "-----END BETA-----\n".data } }) ∧
     ("BETA".data = invALPHA.envLabel →
      StepCloses (xarmourStep 0 spAll ocAll0 stALPHA "-----END BETA-----\n".data))) :=
  ⟨rfl, by decide, by decide,
   claim_C6 0 spAll ocAll0 stALPHA invALPHA "-----END BETA-----\n".data "BETA".data
     rfl (by decide)⟩

/-- C7: while a block is open, a line matching the begin pattern never
starts a new block: the iteration keeps the same open child, appends the
line to its stdin as ordinary content, and spawns nothing (the state's
accumulated invocations are untouched), so at most one block is open and
at most one child is active at any point. -/
theorem claim_C7 (t : Nat) (sp : Nat → Bool) (oc : Nat → WaitResult)
    (st : LoopState) (inv : Invocation) (buffer bl : List Char)
    (hcur : st.cur = some inv) (hb : scanBegin buffer = some bl) :
    xarmourStep t sp oc st buffer =
      .cont { st with cur := some { inv with stdin := inv.stdin ++ buffer } } := by
  have he : scanEnd buffer = none := scanBegin_scanEnd hb
  simp [xarmourStep, hcur, feedLine, he]

/-- C7 (witness): "-----BEGIN INNER-----" inside an open ALPHA block is
forwarded as content and opens nothing. -/
theorem claim_C7_witness :
    stALPHA.cur = some invALPHA ∧
    scanBegin "-----BEGIN INNER-----\n".data = some "INNER".data ∧
    xarmourStep 0 spAll ocAll0 stALPHA "-----BEGIN INNER-----\n".data =
      .cont { stALPHA with cur := some { invALPHA with
        stdin := invALPHA.stdin ++ "-----BEGIN INNER-----\n".data } } :=
  ⟨rfl, by decide,
   claim_C7 0 spAll ocAll0 stALPHA invALPHA "-----BEGIN INNER-----\n".data
     "INNER".data rfl (by decide)⟩

/-- C8: a run (threshold unset) that consumes all input while a block is
still open -- one more invocation than waits -- exits 0; only the waited
children had their pipe write end closed, so the open child's write end
stays open and it is never waited for; and the run's entire outcome is
unchanged under any wait oracle agreeing on the waited children, so the
open child's termination outcome contributes nothing. -/
theorem claim_C8 (sp : Nat → Bool) (oc : Nat → WaitResult) (input : List Char)
    (hcomp : (xarmourMain 0 sp oc input).completed = true)
    (hopen : (xarmourMain 0 sp oc input).invocations.length =
      (xarmourMain 0 sp oc input).waitedCount + 1) :
    (xarmourMain 0 sp oc input).exitCode = 0 ∧
    (xarmourMain 0 sp oc input).waitedCount + 1 =
      (xarmourMain 0 sp oc input).invocations.length ∧
    (xarmourMain 0 sp oc input).pipesClosed + 1 =
      (xarmourMain 0 sp oc input).invocations.length ∧
    ∀ oc', (∀ i, i < (xarmourMain 0 sp oc input).waitedCount → oc i = oc' i) →
      xarmourMain 0 sp oc' input = xarmourMain 0 sp oc input := by
  have hp := runLines_pipes 0 sp oc (readLines input) initState rfl
  refine ⟨?_, hopen.symm, ?_, ?_⟩
  · have hex := runLines_completed_exit 0 sp oc (readLines input) initState hcomp
    simpa using hex
  · rw [xarmourMain] at hopen ⊢
    omega
  · intro oc' hagree
    exact (runLines_oc_agree 0 sp oc oc' (readLines input) initState rfl hagree).symm

/-- C8 (witness): an input ending inside an open block: the run exits 0,
the open child is unwaited with its pipe open, and replacing every unseen
wait outcome (here: all of them) leaves the run unchanged. -/
theorem claim_C8_witness :
    (xarmourMain 0 spAll ocAll0 inputOpenBlock).completed = true ∧
    (xarmourMain 0 spAll ocAll0 inputOpenBlock).invocations.length =
      (xarmourMain 0 spAll ocAll0 inputOpenBlock).waitedCount + 1 ∧
    (xarmourMain 0 spAll ocAll0 inputOpenBlock).exitCode = 0 ∧
    (xarmourMain 0 spAll ocAll0 inputOpenBlock).pipesClosed + 1 =
      (xarmourMain 0 spAll ocAll0 inputOpenBlock).invocations.length ∧
    xarmourMain 0 spAll ocFailedAll inputOpenBlock =
      xarmourMain 0 spAll ocAll0 inputOpenBlock := by
  have h := claim_C8 spAll ocAll0 inputOpenBlock (by decide) (by decide)
  refine ⟨by decide, by decide, h.1, h.2.2.1, ?_⟩
  exact h.2.2.2 ocFailedAll (by decide)

set_option maxRecDepth 10000 in
/-- C9 (counterexample): a single physical line longer than the 1023-byte
fgets bound (1023 letters followed by begin-marker text and the line's only
newline) is NOT silently truncated: the bytes beyond the bound are
processed as further input -- they open a block and become a child's stdin
-- whereas the input cut at the bound spawns nothing. -/
theorem claim_C9_counterexample :
    maxLine - 1 < longLineInput.length ∧
    longLineInput = List.replicate (maxLine - 1) 'a' ++ "-----BEGIN A-----".data ++ ['\n'] ∧
    (∀ ch ∈ List.replicate (maxLine - 1) 'a', ch ≠ '\n') ∧
    (∀ ch ∈ "-----BEGIN A-----".data, ch ≠ '\n') ∧
    (xarmourMain 0 spAll ocAll0 longLineInput).invocations.map
      (fun inv => inv.stdin) = ["-----BEGIN A-----\n".data] ∧
    (xarmourMain 0 spAll ocAll0 (longLineInput.take (maxLine - 1))).invocations = [] :=
  ⟨by decide,
   by simp [longLineInput],
   by intro ch hch; rw [List.mem_replicate] at hch; rw [hch.2]; decide,
   by decide, by decide, by decide⟩

/-- C9 (amended): input lines longer than the 1023-byte fgets buffer bound
are split, not truncated: fgets returns the first 1023 bytes as one chunk
and the remaining bytes as subsequent chunks, every chunk is non-empty and
at most 1023 bytes, no byte is discarded, and the program processes
exactly this chunk sequence. -/
theorem claim_C9 (input : List Char) :
    (readLines input).flatten = input ∧
    (∀ l ∈ readLines input, 1 ≤ l.length ∧ l.length ≤ maxLine - 1) ∧
    (∀ (t : Nat) (sp : Nat → Bool) (oc : Nat → WaitResult),
      xarmourMain t sp oc input = runLines t sp oc (readLines input) initState) :=
  ⟨readLines_flatten input, fun _ hl => readLines_mem_length hl, fun _ _ _ => rfl⟩

/-- C9 (witness): the amended statement at the over-long line. -/
theorem claim_C9_witness :
    (readLines longLineInput).flatten = longLineInput ∧
    (∀ l ∈ readLines longLineInput, 1 ≤ l.length ∧ l.length ≤ maxLine - 1) ∧
    (∀ (t : Nat) (sp : Nat → Bool) (oc : Nat → WaitResult),
      xarmourMain t sp oc longLineInput =
        runLines t sp oc (readLines longLineInput) initState) :=
  claim_C9 longLineInput

/-- C10 (counterexample): the line "-----BEGIN \n" starts with
"-----BEGIN " followed by at least one non-dash byte (the newline), so by
the claim it would be a begin marker with label "\n"; but sscanf's space
directive consumes the blank AND the newline, leaves nothing for %1000[^-],
and the line matches no marker and opens no block. -/
theorem claim_C10_counterexample :
    claimBeginMatch "-----BEGIN \n".data = some ['\n'] ∧
    scanBegin "-----BEGIN \n".data = none ∧
    (xarmourMain 0 spAll ocAll0 "-----BEGIN \nx\n".data).invocations = [] :=
  ⟨by decide, by decide, by decide⟩

/-- C10 (amended): the marker matcher does not require the trailing
"-----" of a begin or end line: any line that starts with the literal
"-----BEGIN" (resp. "-----END"), then any run of whitespace, then at least
one byte that is neither a dash nor whitespace, is treated as a marker
whose label is the maximal run of non-dash bytes from that byte on, capped
at 1000; in particular "-----END ALPHA--" closes a block labelled ALPHA
and "-----BEGIN ALPHA" with no trailing dashes opens a block whose label
is "ALPHA\n", newline included. -/
theorem claim_C10 (w t3 : List Char) (c : Char)
    (hw : ∀ x ∈ w, isWSpace x = true) (hcw : isWSpace c = false)
    (hcd : c ≠ '-') :
    scanBegin (beginLit ++ (w ++ c :: t3)) =
      some (((c :: t3).takeWhile fun x => x != '-').take 1000) ∧
    scanEnd (endLit ++ (w ++ c :: t3)) =
      some (((c :: t3).takeWhile fun x => x != '-').take 1000) :=
  ⟨scanMarker_lit_append beginLit w t3 c hw hcw hcd,
   scanMarker_lit_append endLit w t3 c hw hcw hcd⟩

/-- C10 (witness): "-----BEGIN ALPHA" with no trailing dashes opens a
block labelled "ALPHA\n" (newline included), and "-----END ALPHA--"
closes an open ALPHA block. -/
theorem claim_C10_witness :
    (∀ x ∈ [' '], isWSpace x = true) ∧ isWSpace 'A' = false ∧ 'A' ≠ '-' ∧
    scanBegin (beginLit ++ ([' '] ++ 'A' :: "LPHA\n".data)) =
      some ((('A' :: "LPHA\n".data).takeWhile fun x => x != '-').take 1000) ∧
    scanBegin "-----BEGIN ALPHA\n".data = some "ALPHA\n".data ∧
    scanEnd "-----END ALPHA--\n".data = some "ALPHA".data ∧
    xarmourStep 0 spAll ocAll0 stALPHA "-----END ALPHA--\n".data = .cont stClosed ∧
    stClosed.cur = none := by
  refine ⟨by decide, by decide, by decide, ?_, by decide, by decide, by decide, rfl⟩
  exact (claim_C10 [' '] "LPHA\n".data 'A' (by decide) (by decide) (by decide)).1

end Xarmour
